import Mathlib

/-!
Verification of the fetch/convert/guard pipeline of `src/scripts/fetch.py`
(blueridge-fun-map).

Shallow embedding conventions:
* Python dict sub-objects whose values the code reads as numbers (`center`,
  `bounds`) are modelled as association lists `List (String × ℚ)`; Python's
  `d.get(k)` is `List.lookup k d` and `d[k]` is a lookup that raises
  (`Except.error`) when the key is absent.  Python truthiness of a dict
  (`if center:`) is non-emptiness of the list.
* Python floats are modelled as rationals `ℚ`; the code only adds, divides
  by constants and compares.
* Raised exceptions are `Except.error`; `sys.exit(1)` is an explicit result.
* Wall-clock time is an abstract rational `now` (seconds); a parsed
  `timestamp_osm_base` is an abstract rational; an absent or unparseable
  timestamp is represented by dedicated constructors, since the code treats
  both uniformly (fail open).
-/

namespace FunMap

/-- Constant mirroring `DEFAULT_DROP_THRESHOLD = 50` in fetch.py. -/
def DEFAULT_DROP_THRESHOLD : ℤ := 50

/-- Constant mirroring `DEFAULT_MAX_DATA_LAG_HOURS = 48` in fetch.py. -/
def DEFAULT_MAX_DATA_LAG_HOURS : ℚ := 48

/-- Constant mirroring `RETRY_ROUNDS = 2` in fetch.py (initial + 1 retry). -/
def RETRY_ROUNDS : ℕ := 2

/-- Constant mirroring `RETRY_DELAY_SECONDS = 60 * 60` in fetch.py. -/
def RETRY_DELAY_SECONDS : ℕ := 60 * 60

/-- One raw Overpass element (a JSON object).  Only the keys the code reads
are modelled.  `none` everywhere means the key is absent (for `tags`,
`none` also covers JSON `null`, which `element.get("tags", {}) or {}`
treats the same as absent). -/
structure Element where
  type : Option String
  id : Option ℤ
  tags : Option (List (String × String))
  lon : Option ℚ
  lat : Option ℚ
  center : Option (List (String × ℚ))
  bounds : Option (List (String × ℚ))
deriving Repr, DecidableEq

/-- Python truthiness of an optional dict: `if d:` is true iff the dict is
present and non-empty. -/
def truthy {α : Type} (o : Option (List α)) : Bool :=
  match o with
  | some (_ :: _) => true
  | _ => false

/-- A present, non-empty dict is truthy. -/
theorem truthy_cons {α : Type} (a : α) (l : List α) : truthy (some (a :: l)) = true := rfl

/-- Python dict assignment `d[k] = v`: replace the value at an existing key
in place, otherwise append the new pair at the end. -/
def dictSet (d : List (String × String)) (k v : String) : List (String × String) :=
  if d.any (fun p => p.1 == k) then
    d.map (fun p => if p.1 == k then (k, v) else p)
  else
    d ++ [(k, v)]

/-- One output GeoJSON feature: a Point geometry (`[lon, lat]`) plus a
properties dict.  The constant wrapper keys (`"type": "Feature"`,
`"geometry": {"type": "Point"}`) are not repeated in the model. -/
structure Feature where
  lon : ℚ
  lat : ℚ
  properties : List (String × String)
deriving Repr, DecidableEq

/-- The properties dict built at the top of `element_to_feature_point`:
`dict(tags)` then `properties["@id"] = f"{elem_type}/{elem_id}"` then
`properties["@type"] = elem_type`. -/
def mkProperties (e : Element) : List (String × String) :=
  let elem_type := e.type.getD ""
  let elem_id := e.id.getD 0
  let tags := e.tags.getD []
  dictSet (dictSet tags "@id" (elem_type ++ "/" ++ toString elem_id)) "@type" elem_type

/-- `element_to_feature_point` from fetch.py.  Returns `.ok (some f)` when
the element yields a point feature, `.ok none` when the element is skipped
(`return None` in the source, because `lon`/`lat` stayed `None`), and
`.error` when the source raises: the only raising site is the direct
indexing `b["minlon"]`, `b["maxlon"]`, `b["minlat"]`, `b["maxlat"]` into a
truthy `bounds` dict, evaluated in that order. -/
def element_to_feature_point (e : Element) : Except String (Option Feature) :=
  if e.type.getD "" == "node" then
    match e.lon, e.lat with
    | some lon, some lat => .ok (some ⟨lon, lat, mkProperties e⟩)
    | _, _ => .ok none
  else if e.type.getD "" == "way" || e.type.getD "" == "relation" then
    if truthy e.center then
      match List.lookup "lon" (e.center.getD []), List.lookup "lat" (e.center.getD []) with
      | some lon, some lat => .ok (some ⟨lon, lat, mkProperties e⟩)
      | _, _ => .ok none
    else if truthy e.bounds then
      match List.lookup "minlon" (e.bounds.getD []) with
      | none => .error "KeyError: minlon"
      | some minlon =>
        match List.lookup "maxlon" (e.bounds.getD []) with
        | none => .error "KeyError: maxlon"
        | some maxlon =>
          match List.lookup "minlat" (e.bounds.getD []) with
          | none => .error "KeyError: minlat"
          | some minlat =>
            match List.lookup "maxlat" (e.bounds.getD []) with
            | none => .error "KeyError: maxlat"
            | some maxlat =>
              .ok (some ⟨(minlon + maxlon) / 2, (minlat + maxlat) / 2, mkProperties e⟩)
    else .ok none
  else .ok none

/-- `elements_to_features` from fetch.py.  The source accumulates a feature
list and a local `skipped` counter (the counter is only printed, not
returned); the model returns both.  An exception raised for one element
propagates out of the loop, as in the source. -/
def elements_to_features : List Element → Except String (List Feature × ℕ)
  | [] => .ok ([], 0)
  | e :: rest =>
    match element_to_feature_point e with
    | .error msg => .error msg
    | .ok r =>
      match elements_to_features rest with
      | .error msg => .error msg
      | .ok (fs, k) =>
        match r with
        | some f => .ok (f :: fs, k)
        | none => .ok (fs, k + 1)

/-- The embedded `timestamp_osm_base` of a fetched dataset, abstracted by
how `datetime.fromisoformat` fares on it: absent (or the empty string),
unparseable (any exception inside the `try`), or parsed to a point in time
measured in seconds. -/
inductive Timestamp where
  | absent : Timestamp
  | unparseable : Timestamp
  | parsed : ℚ → Timestamp
deriving Repr, DecidableEq

/-- A parsed Overpass response: the freshness timestamp and the `elements`
array (`data.get("elements", [])`; an absent key is the empty list). -/
structure Dataset where
  timestamp : Timestamp
  elements : List Element
deriving Repr, DecidableEq

/-- `check_data_freshness` from fetch.py, with the current UTC time passed
explicitly as `now` (seconds).  Missing and unparseable timestamps fail
open; otherwise the lag in hours is compared against `max_lag_hours`. -/
def check_data_freshness (data : Dataset) (max_lag_hours : ℚ) (now : ℚ) : Bool :=
  match data.timestamp with
  | .absent => true
  | .unparseable => true
  | .parsed t => decide ((now - t) / 3600 ≤ max_lag_hours)

/-- The previously written output file as seen by `check_feature_drop`:
missing (`os.path.exists` false), unreadable (the `open`/`json.load` raises,
swallowed by the bare `except`), or parsed with
`len(existing.get("features", []))` features. -/
inductive PrevOutput where
  | missing : PrevOutput
  | unreadable : PrevOutput
  | parsed : ℕ → PrevOutput
deriving Repr, DecidableEq

/-- `check_feature_drop` from fetch.py.  Returns `true` when the function
calls `sys.exit(1)` (drop above threshold) and `false` when it returns
normally (no baseline, unreadable baseline, zero baseline, or acceptable
drop). -/
def check_feature_drop (new_count : ℕ) (prev : PrevOutput) (threshold : ℤ) : Bool :=
  match prev with
  | .missing => false
  | .unreadable => false
  | .parsed old_count =>
    if old_count == 0 then false
    else decide ((((old_count : ℚ) - (new_count : ℚ)) / (old_count : ℚ)) * 100 > (threshold : ℚ))

/-- What one HTTP attempt against one endpoint yields, before the freshness
check: either an exception anywhere in the `try` body (transport error,
timeout, non-JSON body — the bare `except Exception` in the source), or a
parsed response dict. -/
inductive Outcome where
  | failure : String → Outcome
  | response : Dataset → Outcome
deriving Repr, DecidableEq

/-- The environment of one `fetch_overpass` run: the endpoint list, the
number of retry rounds, the per-round per-endpoint network outcome, the
configured maximum data lag, and the (abstracted, constant) current time. -/
structure FetchEnv where
  endpoints : List String
  rounds : ℕ
  outcome : ℕ → String → Outcome
  maxLag : ℚ
  now : ℚ

/-- Observable events of `fetch_overpass`, in order: the `time.sleep` at the
top of every round after the first, and each endpoint attempt. -/
inductive Ev where
  | sleep : Ev
  | attempt : ℕ → String → Ev
deriving Repr, DecidableEq

/-- The `last_endpoint` / `last_error` pair threaded through
`fetch_overpass`; both start as `None` and are updated only in the
`except` branch — a stale-but-valid response leaves them untouched. -/
structure FetchSt where
  lastEndpoint : Option String
  lastError : Option String
deriving Repr, DecidableEq

/-- Whether the attempt at round `r` on endpoint `ep` succeeds with fresh
data (the condition under which `fetch_overpass` returns). -/
def hit (env : FetchEnv) (r : ℕ) (ep : String) : Bool :=
  match env.outcome r ep with
  | .failure _ => false
  | .response ds => check_data_freshness ds env.maxLag env.now

/-- The inner endpoint loop of `fetch_overpass` for round `r`: try the
remaining endpoints in order; on an exception record `(endpoint, error)`
and continue; on a stale response continue without recording; on a fresh
response return the dataset at once.  Yields the event trace, the dataset
if one was returned, and the updated `last_*` state. -/
def tryRound (env : FetchEnv) (r : ℕ) :
    List String → FetchSt → List Ev × Option Dataset × FetchSt
  | [], st => ([], none, st)
  | ep :: rest, st =>
    match env.outcome r ep with
    | .failure e =>
      let (tr, res, st') := tryRound env r rest ⟨some ep, some e⟩
      (Ev.attempt r ep :: tr, res, st')
    | .response ds =>
      if check_data_freshness ds env.maxLag env.now then
        ([Ev.attempt r ep], some ds, st)
      else
        let (tr, res, st') := tryRound env r rest st
        (Ev.attempt r ep :: tr, res, st')

/-- The round loop of `fetch_overpass` over the remaining round indices
(`for round_idx in range(RETRY_ROUNDS)`): sleep before any round with
index `> 0`, run the endpoint loop, return its dataset if any, otherwise
carry the `last_*` state into the next round; when the rounds are
exhausted the run fails with that state (`sys.exit(1)` after printing the
last endpoint/error). -/
def fetchRounds (env : FetchEnv) :
    List ℕ → FetchSt → List Ev × Except FetchSt Dataset
  | [], st => ([], .error st)
  | r :: rs, st =>
    let pre := if r > 0 then [Ev.sleep] else []
    let (tr, res, st') := tryRound env r env.endpoints st
    match res with
    | some ds => (pre ++ tr, .ok ds)
    | none =>
      let (tr2, res2) := fetchRounds env rs st'
      (pre ++ tr ++ tr2, res2)

/-- `fetch_overpass` from fetch.py: rounds `0 .. env.rounds - 1`, starting
from `last_error = last_endpoint = None`. -/
def fetch_overpass (env : FetchEnv) : List Ev × Except FetchSt Dataset :=
  fetchRounds env (List.range env.rounds) ⟨none, none⟩

/-- The query file as `read_query` sees it. -/
inductive QueryFile where
  | missing : QueryFile
  | present : String → QueryFile
deriving Repr, DecidableEq

/-- Python's `str.strip()`: drop leading and trailing whitespace. -/
def strip (s : String) : String :=
  ⟨((s.data.dropWhile Char.isWhitespace).reverse.dropWhile Char.isWhitespace).reverse⟩

/-- `read_query` from fetch.py: exit on a missing file or a
whitespace-only content, otherwise return the stripped query.  (The
non-fatal `out center` warning has no observable effect on the run's
result and is not modelled.) -/
def read_query (qf : QueryFile) : Except Unit String :=
  match qf with
  | .missing => .error ()
  | .present content =>
    if (strip content).data.isEmpty then .error () else .ok (strip content)

/-- The observable result of one run of `main`: a fatal termination with a
non-zero exit code and nothing written, or a written output file holding
the given features followed by exit status 0. -/
inductive MainResult where
  | exitFail : ℕ → MainResult
  | written : List Feature → MainResult
deriving Repr, DecidableEq

/-- Modelled from the spec: the tail of `main` after
`write_geojson(features, OUTPUT_FILE)` is truncated in the source (the file
ends mid-token, `pr`); per the spec, a run that reaches the write persists
the features and exits with status 0 (`MainResult.written`).  Everything
before the write follows `main` in fetch.py: `read_query` exits 1 on a
missing/empty query file, `fetch_overpass` exits 1 on exhaustion, an
exception escaping `elements_to_features` terminates the interpreter with
a non-zero status, an empty feature list exits 1, and a triggered
`check_feature_drop` exits 1 before any write. -/
def mainRun (qf : QueryFile) (env : FetchEnv) (prev : PrevOutput) (threshold : ℤ) :
    MainResult :=
  match read_query qf with
  | .error _ => .exitFail 1
  | .ok _ =>
    match (fetch_overpass env).2 with
    | .error _ => .exitFail 1
    | .ok data =>
      match elements_to_features data.elements with
      | .error _ => .exitFail 1
      | .ok (features, _) =>
        if features.isEmpty then .exitFail 1
        else if check_feature_drop features.length prev threshold then .exitFail 1
        else .written features

/-- The element reaches the `bounds` indexing code: its kind is `way` or
`relation`, its `center` is absent or empty (falsy), and its `bounds` is
present and non-empty (truthy). -/
def reachesBounds (e : Element) : Bool :=
  (e.type.getD "" == "way" || e.type.getD "" == "relation")
    && !truthy e.center && truthy e.bounds

/-- The `bounds` dict carries all four keys the code indexes directly. -/
def boundsComplete (e : Element) : Bool :=
  (List.lookup "minlon" (e.bounds.getD [])).isSome
    && (List.lookup "maxlon" (e.bounds.getD [])).isSome
    && (List.lookup "minlat" (e.bounds.getD [])).isSome
    && (List.lookup "maxlat" (e.bounds.getD [])).isSome

/-- Conversion of this element cannot raise: either it never consults
`bounds`, or its `bounds` has all four keys. -/
def convSafe (e : Element) : Bool := !reachesBounds e || boundsComplete e

/-- The feature an element contributes when conversion does not raise
(`none` both for a skipped element and, vacuously, for a raising one). -/
def okFeature (e : Element) : Option Feature :=
  match element_to_feature_point e with
  | .ok r => r
  | .error _ => none

/-- The `last_endpoint`/`last_error` state after the given endpoints of one
round have all been attempted without a fresh success: every exception
overwrites the pair, every (stale) response leaves it unchanged. -/
def stAfter (env : FetchEnv) (r : ℕ) : List String → FetchSt → FetchSt
  | [], st => st
  | ep :: rest, st =>
    stAfter env r rest
      (match env.outcome r ep with
        | .failure e => ⟨some ep, some e⟩
        | .response _ => st)

/-- The events of one full round `r` with no fresh success: the sleep (for
rounds after the first) followed by one attempt per endpoint in list
order. -/
def roundEvs (env : FetchEnv) (r : ℕ) : List Ev :=
  (if r > 0 then [Ev.sleep] else []) ++ env.endpoints.map (Ev.attempt r)

/-- Concatenated events of a run of full rounds (none fresh-successful). -/
def roundsEvs (env : FetchEnv) : List ℕ → List Ev
  | [] => []
  | r :: rs => roundEvs env r ++ roundsEvs env rs

/-- The `last_endpoint`/`last_error` state threaded through a run of full
rounds (none fresh-successful). -/
def roundsSt (env : FetchEnv) : List ℕ → FetchSt → FetchSt
  | [], st => st
  | r :: rs, st => roundsSt env rs (stAfter env r env.endpoints st)

/-! Concrete inputs used by witnesses and counterexamples. -/

/-- A node element with both coordinates and a tag colliding with `@id`. -/
def nodeW : Element :=
  ⟨some "node", some 42, some [("name", "x"), ("@id", "old")], some 1, some 2, none, none⟩

/-- A node element whose `tags` key is null/absent. -/
def nodeNT : Element :=
  ⟨some "node", some 3, none, some 5, some 6, none, none⟩

/-- A way element with a `center` dict carrying both coordinates. -/
def wayW : Element :=
  ⟨some "way", some 7, none, none, none, some [("lon", 3), ("lat", 4)], none⟩

/-- A relation element with no `center` and a complete `bounds` dict. -/
def relW : Element :=
  ⟨some "relation", some 9, none, none, none, none,
    some [("minlon", 0), ("minlat", 0), ("maxlon", 2), ("maxlat", 4)]⟩

/-- An element of a kind outside node/way/relation: always skipped. -/
def skipW : Element := ⟨some "area", some 5, none, none, none, none, none⟩

/-- A way element with no `center` and a truthy `bounds` dict missing
`maxlon` (and more): indexing `b["maxlon"]` raises `KeyError`. -/
def badBounds : Element :=
  ⟨some "way", some 1, none, none, none, none, some [("minlon", 0)]⟩

/-- The feature `element_to_feature_point nodeW` emits. -/
def featW : Feature := ⟨1, 2, [("name", "x"), ("@id", "node/42"), ("@type", "node")]⟩

/-- The feature `element_to_feature_point relW` emits (bounds midpoint). -/
def relFeatW : Feature := ⟨1, 2, [("@id", "relation/9"), ("@type", "relation")]⟩

/-- A fresh dataset (no embedded timestamp) holding one node element. -/
def dsFresh : Dataset := ⟨.absent, [nodeW]⟩

/-- A fetch environment in which every endpoint fails in round 0 and, after
the retry sleep, endpoint "A" fails again while endpoint "B" answers with
fresh data in round 1. -/
def envW : FetchEnv :=
  ⟨["A", "B"], 2,
    fun r ep =>
      if r == 0 then .failure "boom"
      else if ep == "A" then .failure "again"
      else .response dsFresh,
    48, 0⟩

/-- A one-round fetch environment in which endpoint "A" raises and endpoint
"B" answers with valid but stale data (timestamp 100 hours old against a
48-hour limit): the run is exhausted, and the recorded last endpoint is
"A", not the last endpoint tried ("B"). -/
def envStale : FetchEnv :=
  ⟨["A", "B"], 1,
    fun _ ep =>
      if ep == "A" then .failure "boom"
      else .response ⟨.parsed (-360000), []⟩,
    48, 0⟩

/-- A two-round fetch environment in which every attempt raises: the run
is exhausted and the recorded state is the final failure (round 1,
endpoint "B"). -/
def envFail : FetchEnv :=
  ⟨["A", "B"], 2, fun _ _ => .failure "down", 48, 0⟩

/-! Helper lemmas about `dictSet` and `List.lookup`. -/

theorem lookup_cons_self (k v : String) (tl : List (String × String)) :
    List.lookup k ((k, v) :: tl) = some v := by
  simp [List.lookup]

theorem lookup_cons_of_ne (k : String) (p : String × String) (tl : List (String × String))
    (h : k ≠ p.1) : List.lookup k (p :: tl) = List.lookup k tl := by
  obtain ⟨k1, v1⟩ := p
  have hb : (k == k1) = false := beq_eq_false_iff_ne.mpr h
  simp [List.lookup, hb]

theorem lookup_map_set (k v : String) (d : List (String × String))
    (h : d.any (fun p => p.1 == k) = true) :
    List.lookup k (d.map (fun p => if p.1 == k then (k, v) else p)) = some v := by
  induction d with
  | nil => simp at h
  | cons p tl ih =>
    rw [List.map_cons]
    by_cases hp : p.1 = k
    · rw [if_pos (beq_iff_eq.mpr hp)]
      exact lookup_cons_self k v _
    · rw [if_neg (by simp [beq_iff_eq, hp])]
      rw [lookup_cons_of_ne k p _ (fun hk => hp hk.symm)]
      apply ih
      simp only [List.any_cons, Bool.or_eq_true] at h
      rcases h with h | h
      · exact absurd (beq_iff_eq.mp h) hp
      · exact h

theorem lookup_none_of_any_false (k : String) (d : List (String × String))
    (h : d.any (fun p => p.1 == k) = false) : List.lookup k d = none := by
  induction d with
  | nil => rfl
  | cons p tl ih =>
    simp only [List.any_cons, Bool.or_eq_false_iff] at h
    rw [lookup_cons_of_ne k p _ (fun hk => (beq_eq_false_iff_ne.mp h.1) hk.symm)]
    exact ih h.2

theorem lookup_append_single (k v k' : String) (d : List (String × String)) :
    List.lookup k' (d ++ [(k, v)]) =
      ((List.lookup k' d).orElse (fun _ => List.lookup k' [(k, v)])) := by
  induction d with
  | nil => simp
  | cons p tl ih =>
    by_cases hkp : k' = p.1
    · obtain ⟨k1, v1⟩ := p
      rcases hkp with rfl
      rw [List.cons_append, lookup_cons_self, lookup_cons_self]
      rfl
    · rw [List.cons_append, lookup_cons_of_ne k' p _ hkp, lookup_cons_of_ne k' p _ hkp]
      exact ih

theorem lookup_dictSet_self (d : List (String × String)) (k v : String) :
    List.lookup k (dictSet d k v) = some v := by
  unfold dictSet
  cases hany : d.any (fun p => p.1 == k) with
  | true =>
    rw [if_pos rfl]
    exact lookup_map_set k v d hany
  | false =>
    rw [if_neg (by simp)]
    rw [lookup_append_single]
    rw [lookup_none_of_any_false k d hany]
    exact lookup_cons_self k v []

theorem lookup_dictSet_ne (d : List (String × String)) (k v k' : String) (h : k' ≠ k) :
    List.lookup k' (dictSet d k v) = List.lookup k' d := by
  unfold dictSet
  cases hany : d.any (fun p => p.1 == k) with
  | true =>
    rw [if_pos rfl]
    clear hany
    induction d with
    | nil => rfl
    | cons p tl ih =>
      rw [List.map_cons]
      by_cases hp : p.1 = k
      · rw [if_pos (beq_iff_eq.mpr hp)]
        rw [lookup_cons_of_ne k' (k, v) _ h, lookup_cons_of_ne k' p _ (hp ▸ h)]
        exact ih
      · rw [if_neg (by simp [beq_iff_eq, hp])]
        by_cases hkp : k' = p.1
        · obtain ⟨k1, v1⟩ := p
          rcases hkp with rfl
          rw [lookup_cons_self, lookup_cons_self]
        · rw [lookup_cons_of_ne k' p _ hkp, lookup_cons_of_ne k' p _ hkp]
          exact ih
  | false =>
    rw [if_neg (by simp)]
    rw [lookup_append_single]
    rw [lookup_cons_of_ne k' (k, v) [] h]
    cases hd : List.lookup k' d with
    | some w => rfl
    | none => rfl

theorem lookup_mkProperties_id (e : Element) :
    List.lookup "@id" (mkProperties e) =
      some (e.type.getD "" ++ "/" ++ toString (e.id.getD 0)) := by
  unfold mkProperties
  rw [lookup_dictSet_ne _ _ _ _ (by decide), lookup_dictSet_self]

theorem lookup_mkProperties_type (e : Element) :
    List.lookup "@type" (mkProperties e) = some (e.type.getD "") := by
  unfold mkProperties
  rw [lookup_dictSet_self]

theorem lookup_mkProperties_other (e : Element) (k : String)
    (h1 : k ≠ "@id") (h2 : k ≠ "@type") :
    List.lookup k (mkProperties e) = List.lookup k (e.tags.getD []) := by
  unfold mkProperties
  rw [lookup_dictSet_ne _ _ _ _ h2, lookup_dictSet_ne _ _ _ _ h1]

/-- Whenever conversion emits a feature, its properties dict is the one
built at the top of `element_to_feature_point`. -/
theorem properties_of_emitted (e : Element) (f : Feature)
    (h : element_to_feature_point e = .ok (some f)) :
    f.properties = mkProperties e := by
  unfold element_to_feature_point at h
  repeat' split at h
  all_goals first
    | (injection h with h1
       injection h1 with h2
       rw [← h2])
    | (injection h with h1
       injection h1)
    | injection h

/-- C1: Drop-Guard abort condition — with a readable previous output of
`P > 0` features, `check_feature_drop` aborts iff `(P - N) / P * 100`
exceeds the threshold; a missing, unreadable, or zero-feature baseline
never aborts; and any run that reaches the write has a non-aborting
guard (the guard runs before any write). -/
theorem C1_drop_guard_iff (N P : ℕ) (threshold : ℤ) (hP : 0 < P) :
    (check_feature_drop N (PrevOutput.parsed P) threshold = true ↔
      ((P : ℚ) - (N : ℚ)) / (P : ℚ) * 100 > (threshold : ℚ))
    ∧ (∀ M : ℕ,
        check_feature_drop M PrevOutput.missing threshold = false
        ∧ check_feature_drop M PrevOutput.unreadable threshold = false
        ∧ check_feature_drop M (PrevOutput.parsed 0) threshold = false)
    ∧ (∀ qf env prev th fs, mainRun qf env prev th = MainResult.written fs →
        check_feature_drop fs.length prev th = false) := by
  refine ⟨?_, ?_, ?_⟩
  · have hne : (P == 0) = false := by
      simp [Nat.pos_iff_ne_zero.mp hP]
    simp [check_feature_drop, hne]
  · intro M
    exact ⟨rfl, rfl, by simp [check_feature_drop]⟩
  · intro qf env prev th fs h
    unfold mainRun at h
    repeat' split at h
    all_goals simp_all

/-- Witness for C1 at the spec's end-to-end scenario: previous count 100,
new count 40, threshold 50 — a 60% drop aborts. -/
theorem C1_drop_guard_iff_witness :
    0 < 100
    ∧ (check_feature_drop 40 (PrevOutput.parsed 100) 50 = true ↔
        ((100 : ℚ) - (40 : ℚ)) / (100 : ℚ) * 100 > ((50 : ℤ) : ℚ)) := by
  exact ⟨by decide, (C1_drop_guard_iff 40 100 50 (by decide)).1⟩

/-- Unfolding equation of `elements_to_features` at a cons cell. -/
theorem elements_to_features_cons (e : Element) (rest : List Element) :
    elements_to_features (e :: rest) =
      match element_to_feature_point e with
      | .error msg => .error msg
      | .ok r =>
        match elements_to_features rest with
        | .error msg => .error msg
        | .ok (fs, k) =>
          match r with
          | some f => .ok (f :: fs, k)
          | none => .ok (fs, k + 1) := rfl

/-- A conversion-safe element never raises. -/
theorem conv_total (e : Element) (h : convSafe e = true) :
    ∃ r, element_to_feature_point e = .ok r := by
  unfold element_to_feature_point
  repeat' split
  all_goals first
    | exact ⟨_, rfl⟩
    | simp_all [convSafe, reachesBounds, boundsComplete]

/-- C4: Geometry resolution — a node with both coordinates maps to them
directly; a way/relation with a (truthy) center carrying both coordinates
maps to the center; with no truthy center but a truthy bounds dict holding
all four keys, it maps to the arithmetic midpoint of the bounds. -/
theorem C4_geometry (e : Element) :
    (∀ lon lat : ℚ, e.type = some "node" → e.lon = some lon → e.lat = some lat →
      element_to_feature_point e = .ok (some ⟨lon, lat, mkProperties e⟩))
    ∧ (∀ (t : String) (c : List (String × ℚ)) (lon lat : ℚ),
        e.type = some t → t = "way" ∨ t = "relation" →
        e.center = some c → c ≠ [] →
        List.lookup "lon" c = some lon → List.lookup "lat" c = some lat →
        element_to_feature_point e = .ok (some ⟨lon, lat, mkProperties e⟩))
    ∧ (∀ (t : String) (b : List (String × ℚ)) (minlon minlat maxlon maxlat : ℚ),
        e.type = some t → t = "way" ∨ t = "relation" →
        truthy e.center = false → e.bounds = some b → b ≠ [] →
        List.lookup "minlon" b = some minlon → List.lookup "minlat" b = some minlat →
        List.lookup "maxlon" b = some maxlon → List.lookup "maxlat" b = some maxlat →
        element_to_feature_point e =
          .ok (some ⟨(minlon + maxlon) / 2, (minlat + maxlat) / 2, mkProperties e⟩)) := by
  refine ⟨?_, ?_, ?_⟩
  · intro lon lat ht hlon hlat
    simp [element_to_feature_point, ht, hlon, hlat]
  · intro t c lon lat ht hwr hc hcne hlon hlat
    obtain ⟨p, c', rfl⟩ := List.exists_cons_of_ne_nil hcne
    rcases hwr with rfl | rfl <;>
      simp [element_to_feature_point, ht, hc, truthy_cons, hlon, hlat]
  · intro t b minlon minlat maxlon maxlat ht hwr hnc hb hbne h1 h2 h3 h4
    obtain ⟨p, b', rfl⟩ := List.exists_cons_of_ne_nil hbne
    rcases hwr with rfl | rfl <;>
      simp [element_to_feature_point, ht, hnc, hb, truthy_cons, h1, h2, h3, h4]

/-- Witness for C4: the node `nodeW` keeps `(1, 2)`, the way `wayW` takes
its center `(3, 4)`, and the relation `relW` takes the midpoint `(1, 2)`
of its bounds. -/
theorem C4_geometry_witness :
    element_to_feature_point nodeW = .ok (some ⟨1, 2, mkProperties nodeW⟩)
    ∧ element_to_feature_point wayW = .ok (some ⟨3, 4, mkProperties wayW⟩)
    ∧ element_to_feature_point relW = .ok (some ⟨1, 2, mkProperties relW⟩) := by
  refine ⟨(C4_geometry nodeW).1 1 2 rfl rfl rfl, ?_, ?_⟩
  · exact (C4_geometry wayW).2.1 "way" [("lon", 3), ("lat", 4)] 3 4
      rfl (Or.inl rfl) rfl (by decide) rfl rfl
  · have h := (C4_geometry relW).2.2 "relation"
      [("minlon", 0), ("minlat", 0), ("maxlon", 2), ("maxlat", 4)] 0 0 2 4
      rfl (Or.inr rfl) rfl rfl (by decide) rfl rfl rfl rfl
    norm_num at h
    exact h

/-- C6: Emitted properties — `@id` is `"<kind>/<id>"`, `@type` is the kind
(both synthetic values overwrite any same-named source tag), and every
other key looks up to exactly its source-tag value. -/
theorem C6_properties (e : Element) (f : Feature)
    (h : element_to_feature_point e = .ok (some f)) :
    List.lookup "@id" f.properties =
        some (e.type.getD "" ++ "/" ++ toString (e.id.getD 0))
    ∧ List.lookup "@type" f.properties = some (e.type.getD "")
    ∧ ∀ key, key ≠ "@id" → key ≠ "@type" →
        List.lookup key f.properties = List.lookup key (e.tags.getD []) := by
  rw [properties_of_emitted e f h]
  exact ⟨lookup_mkProperties_id e, lookup_mkProperties_type e,
    fun key h1 h2 => lookup_mkProperties_other e key h1 h2⟩

/-- Witness for C6 at `nodeW`, whose source tags include a colliding
`@id` tag (value "old"): the synthetic value wins and the ordinary tag
`name` passes through verbatim. -/
theorem C6_properties_witness :
    List.lookup "@id" featW.properties = some "node/42"
    ∧ List.lookup "@type" featW.properties = some "node"
    ∧ List.lookup "name" featW.properties = some "x" := by
  have h := C6_properties nodeW featW (by rfl)
  exact ⟨h.1, h.2.1, h.2.2 "name" (by decide) (by decide)⟩

/-- C7: Freshness check — no timestamp or an unparseable timestamp fails
open (returns `true`); a parsed timestamp is fresh iff the elapsed hours
`(now - t) / 3600` are at most `maxLagHours`. -/
theorem C7_freshness (els : List Element) (maxLag now t : ℚ) :
    check_data_freshness ⟨Timestamp.absent, els⟩ maxLag now = true
    ∧ check_data_freshness ⟨Timestamp.unparseable, els⟩ maxLag now = true
    ∧ (check_data_freshness ⟨Timestamp.parsed t, els⟩ maxLag now = true ↔
        (now - t) / 3600 ≤ maxLag) := by
  refine ⟨rfl, rfl, ?_⟩
  simp [check_data_freshness]

/-- C3 counterexample: the claim says conversion never raises, even for a
bounds object missing one of the four keys; but on `badBounds` (a way, no
center, bounds holding only `minlon`) the direct indexing `b["maxlon"]`
raises `KeyError`, which propagates out of `elements_to_features`. -/
theorem C3_total_counterexample :
    elements_to_features [badBounds] = Except.error "KeyError: maxlon"
    ∧ List.lookup "maxlon" (badBounds.bounds.getD []) = none := by
  exact ⟨rfl, rfl⟩

/-- C3 (amended): conversion is total for every list of elements that do
not consult an incomplete bounds dict (`convSafe`); each element then
yields exactly one feature or one skip, and nothing degenerate is ever
emitted (an emitted `Feature` carries a concrete coordinate pair by
construction). -/
theorem C3_total_amended (es : List Element) (h : ∀ e ∈ es, convSafe e = true) :
    ∃ fs k, elements_to_features es = .ok (fs, k) ∧ k + fs.length = es.length := by
  induction es with
  | nil => exact ⟨[], 0, rfl, rfl⟩
  | cons e rest ih =>
    obtain ⟨r, hr⟩ := conv_total e (h e (List.mem_cons_self e rest))
    obtain ⟨fs, k, hfs, hlen⟩ := ih (fun x hx => h x (List.mem_cons_of_mem e hx))
    cases r with
    | some f =>
      refine ⟨f :: fs, k, ?_, ?_⟩
      · simp [elements_to_features, hr, hfs]
      · simp only [List.length_cons]
        omega
    | none =>
      refine ⟨fs, k + 1, ?_, ?_⟩
      · simp [elements_to_features, hr, hfs]
      · simp only [List.length_cons]
        omega

/-- Witness for C3 (amended) on a mixed list: one node, one unknown-kind
element (skipped), one relation with complete bounds. -/
theorem C3_total_amended_witness :
    (∀ e ∈ [nodeW, skipW, relW], convSafe e = true)
    ∧ (∃ fs k, elements_to_features [nodeW, skipW, relW] = .ok (fs, k)
        ∧ k + fs.length = [nodeW, skipW, relW].length) := by
  exact ⟨by decide, C3_total_amended [nodeW, skipW, relW] (by decide)⟩

/-- C5: Conservation and order — whenever conversion returns, each input
element contributed exactly one feature or one skip
(`skipped + len(features) = len(elements)`), and the features are exactly
the per-element emissions in input order (no deduplication by id). -/
theorem C5_conservation_order (es : List Element) (fs : List Feature) (k : ℕ)
    (h : elements_to_features es = .ok (fs, k)) :
    k + fs.length = es.length ∧ fs = es.filterMap okFeature := by
  induction es generalizing fs k with
  | nil =>
    simp only [elements_to_features, Except.ok.injEq, Prod.mk.injEq] at h
    obtain ⟨h1, h2⟩ := h
    subst h1; subst h2
    simp
  | cons e rest ih =>
    rw [elements_to_features_cons] at h
    cases hval : element_to_feature_point e with
    | error m =>
      rw [hval] at h
      exact absurd h (by simp)
    | ok r =>
      rw [hval] at h
      cases hrest : elements_to_features rest with
      | error m =>
        rw [hrest] at h
        exact absurd h (by simp)
      | ok p =>
        obtain ⟨fs2, k2⟩ := p
        rw [hrest] at h
        obtain ⟨ihlen, ihord⟩ := ih fs2 k2 hrest
        have hok : okFeature e = r := by
          unfold okFeature
          rw [hval]
        cases r with
        | some f =>
          simp only [Except.ok.injEq, Prod.mk.injEq] at h
          obtain ⟨h1, h2⟩ := h
          subst h1; subst h2
          refine ⟨?_, ?_⟩
          · simp only [List.length_cons]
            omega
          · simp [List.filterMap_cons, hok, ← ihord]
        | none =>
          simp only [Except.ok.injEq, Prod.mk.injEq] at h
          obtain ⟨h1, h2⟩ := h
          subst h1; subst h2
          refine ⟨?_, ?_⟩
          · simp only [List.length_cons]
            omega
          · simp [List.filterMap_cons, hok, ← ihord]

/-- Witness for C5 on a three-element list with one skipped element:
2 features + 1 skip = 3 inputs, in input order. -/
theorem C5_conservation_order_witness :
    elements_to_features [nodeW, skipW, relW] = Except.ok ([featW, relFeatW], 1)
    ∧ 1 + [featW, relFeatW].length = [nodeW, skipW, relW].length
    ∧ [featW, relFeatW] = [nodeW, skipW, relW].filterMap okFeature := by
  have h1 : element_to_feature_point nodeW = .ok (some featW) := rfl
  have h2 : element_to_feature_point skipW = .ok none := rfl
  have h3 : element_to_feature_point relW =
      .ok (some ⟨(0 + 2) / 2, (0 + 4) / 2, mkProperties relW⟩) := rfl
  have e1 : ((0 : ℚ) + 2) / 2 = 1 := by norm_num
  have e2 : ((0 : ℚ) + 4) / 2 = 2 := by norm_num
  rw [e1, e2] at h3
  have hconv : elements_to_features [nodeW, skipW, relW] =
      Except.ok ([featW, relFeatW], 1) := by
    simp only [elements_to_features, h1, h2, h3]
    rfl
  have h := C5_conservation_order [nodeW, skipW, relW] [featW, relFeatW] 1 hconv
  exact ⟨hconv, h.1, h.2⟩

/-- C10 counterexample: the claim says conversion never fails for an
element whose tags field is null/absent; but `badBounds` has `tags = none`
and conversion still raises `KeyError` on its incomplete bounds dict. -/
theorem C10_null_tags_counterexample :
    badBounds.tags = none
    ∧ element_to_feature_point badBounds = Except.error "KeyError: maxlon" := by
  exact ⟨rfl, rfl⟩

/-- C10 (amended): handling a null/absent tags field itself never fails —
for every element with `tags = none` whose geometry resolution does not
consult an incomplete bounds dict, conversion returns, and if a feature is
emitted its properties are exactly the two synthetic keys. -/
theorem C10_null_tags_amended (e : Element) (h : e.tags = none)
    (hsafe : convSafe e = true) :
    (∃ r, element_to_feature_point e = .ok r)
    ∧ ∀ f, element_to_feature_point e = .ok (some f) →
        f.properties = [("@id", e.type.getD "" ++ "/" ++ toString (e.id.getD 0)),
                        ("@type", e.type.getD "")] := by
  refine ⟨conv_total e hsafe, ?_⟩
  intro f hf
  rw [properties_of_emitted e f hf]
  simp [mkProperties, h, dictSet]

/-- Witness for C10 at `nodeNT`, a node with absent tags. -/
theorem C10_null_tags_amended_witness :
    nodeNT.tags = none
    ∧ convSafe nodeNT = true
    ∧ element_to_feature_point nodeNT =
        .ok (some ⟨5, 6, [("@id", "node/3"), ("@type", "node")]⟩) := by
  refine ⟨rfl, by decide, ?_⟩
  have h := (C10_null_tags_amended nodeNT rfl (by decide)).2
    ⟨5, 6, mkProperties nodeNT⟩ (by rfl)
  have h' : mkProperties nodeNT =
      [("@id", nodeNT.type.getD "" ++ "/" ++ toString (nodeNT.id.getD 0)),
       ("@type", nodeNT.type.getD "")] := h
  rw [show element_to_feature_point nodeNT =
      .ok (some ⟨5, 6, mkProperties nodeNT⟩) from rfl, h']
  rfl

/-! Helper lemmas about the retry orchestrator. -/

theorem hit_failure (env : FetchEnv) (r : ℕ) (ep e : String)
    (h : env.outcome r ep = .failure e) : hit env r ep = false := by
  unfold hit
  rw [h]

theorem hit_response (env : FetchEnv) (r : ℕ) (ep : String) (ds : Dataset)
    (h : env.outcome r ep = .response ds) :
    hit env r ep = check_data_freshness ds env.maxLag env.now := by
  unfold hit
  rw [h]

/-- A round with no fresh success attempts every endpoint in order and
threads the `last_*` state through the failures. -/
theorem tryRound_nohit (env : FetchEnv) (r : ℕ) (eps : List String) (st : FetchSt)
    (h : ∀ ep ∈ eps, hit env r ep = false) :
    tryRound env r eps st = (eps.map (Ev.attempt r), none, stAfter env r eps st) := by
  induction eps generalizing st with
  | nil => rfl
  | cons ep rest ih =>
    have hep : hit env r ep = false := h ep (List.mem_cons_self ep rest)
    have hrest : ∀ x ∈ rest, hit env r x = false :=
      fun x hx => h x (List.mem_cons_of_mem ep hx)
    cases hout : env.outcome r ep with
    | failure e =>
      simp only [tryRound, hout, ih ⟨some ep, some e⟩ hrest]
      simp [stAfter, hout]
    | response ds =>
      have hfr : check_data_freshness ds env.maxLag env.now = false := by
        rw [← hit_response env r ep ds hout]
        exact hep
      simp only [tryRound, hout, hfr, Bool.false_eq_true, if_false, ih st hrest]
      simp [stAfter, hout]

/-- A round whose first fresh success sits at `ep0` (after the misses
`preE`) attempts exactly `preE ++ [ep0]` and returns `ep0`'s dataset; the
returned state records only the failures of `preE`. -/
theorem tryRound_hit (env : FetchEnv) (r : ℕ) (preE : List String) (ep0 : String)
    (restE : List String) (st : FetchSt)
    (hpre : ∀ ep ∈ preE, hit env r ep = false) (h0 : hit env r ep0 = true) :
    ∃ ds, env.outcome r ep0 = .response ds
      ∧ check_data_freshness ds env.maxLag env.now = true
      ∧ tryRound env r (preE ++ ep0 :: restE) st =
          (preE.map (Ev.attempt r) ++ [Ev.attempt r ep0], some ds,
           stAfter env r preE st) := by
  induction preE generalizing st with
  | nil =>
    cases hout : env.outcome r ep0 with
    | failure e =>
      rw [hit_failure env r ep0 e hout] at h0
      exact absurd h0 (by simp)
    | response ds =>
      have hfr : check_data_freshness ds env.maxLag env.now = true := by
        rw [← hit_response env r ep0 ds hout]
        exact h0
      refine ⟨ds, rfl, hfr, ?_⟩
      simp [tryRound, hout, hfr, stAfter]
  | cons ep pre2 ih =>
    have hep : hit env r ep = false := hpre ep (List.mem_cons_self ep pre2)
    have hpre2 : ∀ x ∈ pre2, hit env r x = false :=
      fun x hx => hpre x (List.mem_cons_of_mem ep hx)
    cases hout : env.outcome r ep with
    | failure e =>
      obtain ⟨ds, hds, hfr, hrec⟩ := ih ⟨some ep, some e⟩ hpre2
      refine ⟨ds, hds, hfr, ?_⟩
      simp only [List.cons_append, tryRound, hout]
      simp [hrec, stAfter, hout]
    | response ds2 =>
      have hfr2 : check_data_freshness ds2 env.maxLag env.now = false := by
        rw [← hit_response env r ep ds2 hout]
        exact hep
      obtain ⟨ds, hds, hfr, hrec⟩ := ih st hpre2
      refine ⟨ds, hds, hfr, ?_⟩
      simp only [List.cons_append, tryRound, hout, hfr2, Bool.false_eq_true, if_false]
      simp [hrec, stAfter, hout]

/-- A run in which no attempt hits walks every round in full and fails
with the threaded state. -/
theorem fetchRounds_nohit (env : FetchEnv) (rs : List ℕ) (st : FetchSt)
    (h : ∀ r ∈ rs, ∀ ep ∈ env.endpoints, hit env r ep = false) :
    fetchRounds env rs st = (roundsEvs env rs, .error (roundsSt env rs st)) := by
  induction rs generalizing st with
  | nil => rfl
  | cons r rs2 ih =>
    have h1 := tryRound_nohit env r env.endpoints st
      (h r (List.mem_cons_self r rs2))
    have h2 : ∀ x ∈ rs2, ∀ ep ∈ env.endpoints, hit env x ep = false :=
      fun x hx => h x (List.mem_cons_of_mem r hx)
    simp only [fetchRounds, h1, ih (stAfter env r env.endpoints st) h2]
    simp [roundsEvs, roundEvs, roundsSt]

/-- A run whose first hit sits in round `r0` at endpoint `ep0` walks the
earlier rounds in full, then round `r0` up to `ep0`, and returns `ep0`'s
dataset at once. -/
theorem fetchRounds_hit (env : FetchEnv) (rsPre : List ℕ) (r0 : ℕ) (rsRest : List ℕ)
    (st : FetchSt) (preE : List String) (ep0 : String) (restE : List String)
    (hEps : env.endpoints = preE ++ ep0 :: restE)
    (hpre : ∀ r ∈ rsPre, ∀ ep ∈ env.endpoints, hit env r ep = false)
    (hpreE : ∀ ep ∈ preE, hit env r0 ep = false)
    (h0 : hit env r0 ep0 = true) :
    ∃ ds, env.outcome r0 ep0 = .response ds
      ∧ check_data_freshness ds env.maxLag env.now = true
      ∧ fetchRounds env (rsPre ++ r0 :: rsRest) st =
          (roundsEvs env rsPre ++ ((if r0 > 0 then [Ev.sleep] else []) ++
            (preE.map (Ev.attempt r0) ++ [Ev.attempt r0 ep0])),
           .ok ds) := by
  induction rsPre generalizing st with
  | nil =>
    obtain ⟨ds, hds, hfr, htr⟩ := tryRound_hit env r0 preE ep0 restE st hpreE h0
    refine ⟨ds, hds, hfr, ?_⟩
    rw [List.nil_append]
    simp only [fetchRounds, hEps, htr, roundsEvs]
    simp
  | cons r rsPre2 ih =>
    have h1 := tryRound_nohit env r env.endpoints st
      (hpre r (List.mem_cons_self r rsPre2))
    have h2 : ∀ x ∈ rsPre2, ∀ ep ∈ env.endpoints, hit env x ep = false :=
      fun x hx => hpre x (List.mem_cons_of_mem r hx)
    obtain ⟨ds, hds, hfr, hrec⟩ := ih (stAfter env r env.endpoints st) h2
    refine ⟨ds, hds, hfr, ?_⟩
    simp only [List.cons_append, fetchRounds, h1]
    simp [hrec, roundsEvs, roundEvs, List.append_assoc]

/-- C8: Retry orchestration, first-fresh-wins — rounds run `0 ..
rounds - 1` (the source default `RETRY_ROUNDS` is 2), with a sleep before
every entered round after the first; within a round, endpoints are tried
in fixed list order; failed and stale attempts are skipped past; the run
returns the first successful-and-fresh dataset immediately, attempting no
endpoint or round beyond it — the full event trace is exactly the earlier
full rounds, then round `r0` up to and including the hit. -/
theorem C8_first_fresh_wins (env : FetchEnv) (r0 : ℕ) (preE : List String)
    (ep0 : String) (restE : List String)
    (hr : r0 < env.rounds)
    (hEps : env.endpoints = preE ++ ep0 :: restE)
    (hpreRounds : ∀ r < r0, ∀ ep ∈ env.endpoints, hit env r ep = false)
    (hpreE : ∀ ep ∈ preE, hit env r0 ep = false)
    (h0 : hit env r0 ep0 = true) :
    RETRY_ROUNDS = 2
    ∧ ∃ ds, env.outcome r0 ep0 = .response ds
        ∧ check_data_freshness ds env.maxLag env.now = true
        ∧ fetch_overpass env =
            (roundsEvs env (List.range r0) ++ ((if r0 > 0 then [Ev.sleep] else []) ++
              (preE.map (Ev.attempt r0) ++ [Ev.attempt r0 ep0])),
             .ok ds) := by
  refine ⟨rfl, ?_⟩
  obtain ⟨m, hm⟩ : ∃ m, env.rounds = r0 + 1 + m := ⟨env.rounds - (r0 + 1), by omega⟩
  have hsplit : List.range env.rounds =
      List.range r0 ++ r0 :: (List.range m).map (fun i => r0 + 1 + i) := by
    rw [hm, List.range_add, List.range_succ]
    simp [List.append_assoc]
  unfold fetch_overpass
  rw [hsplit]
  exact fetchRounds_hit env (List.range r0) r0 _ ⟨none, none⟩ preE ep0 restE hEps
    (fun r hr2 => hpreRounds r (List.mem_range.mp hr2)) hpreE h0

/-- Witness for C8 at `envW` (spec's end-to-end scenario, shrunk to two
endpoints): both endpoints fail in round 0; after the sleep, round 1 fails
on "A" and succeeds fresh on "B" — exactly five events, result "B"'s
dataset. -/
theorem C8_first_fresh_wins_witness :
    fetch_overpass envW =
      ([Ev.attempt 0 "A", Ev.attempt 0 "B", Ev.sleep, Ev.attempt 1 "A", Ev.attempt 1 "B"],
       .ok dsFresh) := by
  obtain ⟨ds, hds, hfr, hfetch⟩ :=
    (C8_first_fresh_wins envW 1 ["A"] "B" [] (by decide) rfl
      (by decide) (by decide) (by decide)).2
  have hds2 : Outcome.response dsFresh = Outcome.response ds := by
    calc Outcome.response dsFresh = envW.outcome 1 "B" := rfl
    _ = Outcome.response ds := hds
  cases hds2
  rw [hfetch]
  rfl

/-- C9 counterexample: in `envStale` (one round; "A" raises, "B" answers
valid-but-stale) the run is exhausted having tried "A" then "B" — the last
endpoint tried is "B" — yet the reported state carries endpoint "A",
because a stale response does not update `last_endpoint`/`last_error`. -/
theorem C9_last_error_counterexample :
    fetch_overpass envStale =
      ([Ev.attempt 0 "A", Ev.attempt 0 "B"], .error ⟨some "A", some "boom"⟩)
    ∧ (some "A" : Option String) ≠ some "B" := by
  constructor
  · have hstale : check_data_freshness ⟨.parsed (-360000), []⟩ 48 0 = false := by
      unfold check_data_freshness
      rw [decide_eq_false_iff_not]
      norm_num
    have hB : hit envStale 0 "B" = false := hstale
    have hA : hit envStale 0 "A" = false := rfl
    have hall : ∀ r ∈ List.range envStale.rounds, ∀ ep ∈ envStale.endpoints,
        hit envStale r ep = false := by
      intro r hr ep hep
      have hr0 : r = 0 := by
        have : r < 1 := List.mem_range.mp hr
        omega
      subst hr0
      have : ep = "A" ∨ ep = "B" := by
        simpa [envStale] using hep
      rcases this with rfl | rfl
      · exact hA
      · exact hB
    have h := fetchRounds_nohit envStale (List.range envStale.rounds) ⟨none, none⟩ hall
    rw [show fetch_overpass envStale =
        fetchRounds envStale (List.range envStale.rounds) ⟨none, none⟩ from rfl, h]
    rfl
  · decide

/-- C9 (amended): on total exhaustion the run fails fatally (the process
exits non-zero) carrying the `last_endpoint`/`last_error` pair threaded by
`stAfter`, which records the endpoint and error of the most recent
transport/parse failure only — a valid-but-stale response leaves the pair
untouched, so the reported endpoint may differ from the last endpoint
tried, and if every attempt was stale the pair stays `none`. -/
theorem C9_exhaustion_amended (env : FetchEnv)
    (h : ∀ r ∈ List.range env.rounds, ∀ ep ∈ env.endpoints, hit env r ep = false) :
    fetch_overpass env =
      (roundsEvs env (List.range env.rounds),
       .error (roundsSt env (List.range env.rounds) ⟨none, none⟩))
    ∧ ∀ qf prev th, mainRun qf env prev th = .exitFail 1 := by
  have hfetch := fetchRounds_nohit env (List.range env.rounds) ⟨none, none⟩ h
  constructor
  · exact hfetch
  · intro qf prev th
    unfold mainRun
    cases hq : read_query qf with
    | error u => rfl
    | ok q =>
      have h2 : (fetch_overpass env).2 =
          .error (roundsSt env (List.range env.rounds) ⟨none, none⟩) := by
        rw [show fetch_overpass env =
            fetchRounds env (List.range env.rounds) ⟨none, none⟩ from rfl, hfetch]
      rw [h2]

/-- Witness for C9 (amended) at `envFail`: every attempt of both rounds
raises, the run fails, and the reported pair is the final failure
(round 1, endpoint "B"). -/
theorem C9_exhaustion_amended_witness :
    fetch_overpass envFail =
      ([Ev.attempt 0 "A", Ev.attempt 0 "B", Ev.sleep, Ev.attempt 1 "A", Ev.attempt 1 "B"],
       .error ⟨some "B", some "down"⟩)
    ∧ mainRun (QueryFile.present "q") envFail PrevOutput.missing 50 = .exitFail 1 := by
  have h := C9_exhaustion_amended envFail (by decide)
  constructor
  · rw [h.1]
    rfl
  · exact h.2 (QueryFile.present "q") PrevOutput.missing 50

/-- C2: Exit discipline of `main` — with a non-empty query file, a usable
fetched dataset, at least one converted feature and a quiet drop-guard,
the run writes the features and exits 0 (`MainResult.written`); a missing
or empty query file, fetch exhaustion, an empty feature list, or a
triggered drop-guard each exit with status 1; and no fatal exit carries
status 0. -/
theorem C2_exit_codes (qf : QueryFile) (env : FetchEnv) (prev : PrevOutput) (th : ℤ) :
    (∀ q ds fs k, read_query qf = .ok q → (fetch_overpass env).2 = .ok ds →
      elements_to_features ds.elements = .ok (fs, k) → fs ≠ [] →
      check_feature_drop fs.length prev th = false →
      mainRun qf env prev th = .written fs)
    ∧ (read_query qf = .error () → mainRun qf env prev th = .exitFail 1)
    ∧ (∀ st, (fetch_overpass env).2 = .error st → mainRun qf env prev th = .exitFail 1)
    ∧ (∀ ds fs k, (fetch_overpass env).2 = .ok ds →
        elements_to_features ds.elements = .ok (fs, k) → fs = [] →
        mainRun qf env prev th = .exitFail 1)
    ∧ (∀ ds fs k, (fetch_overpass env).2 = .ok ds →
        elements_to_features ds.elements = .ok (fs, k) →
        check_feature_drop fs.length prev th = true →
        mainRun qf env prev th = .exitFail 1)
    ∧ (∀ c, mainRun qf env prev th = .exitFail c → c ≠ 0) := by
  refine ⟨?_, ?_, ?_, ?_, ?_, ?_⟩
  · intro q ds fs k hq hfetch hconv hne hguard
    have hempty : fs.isEmpty = false := by
      cases fs with
      | nil => exact absurd rfl hne
      | cons a l => rfl
    simp [mainRun, hq, hfetch, hconv, hempty, hguard]
  · intro hq
    simp [mainRun, hq]
  · intro st hfetch
    cases hq : read_query qf with
    | error u => simp [mainRun, hq]
    | ok q => simp [mainRun, hq, hfetch]
  · intro ds fs k hfetch hconv hnil
    cases hq : read_query qf with
    | error u => simp [mainRun, hq]
    | ok q =>
      subst hnil
      simp [mainRun, hq, hfetch, hconv]
  · intro ds fs k hfetch hconv hguard
    cases hq : read_query qf with
    | error u => simp [mainRun, hq]
    | ok q =>
      cases hfs : fs.isEmpty with
      | true => simp [mainRun, hq, hfetch, hconv, hfs]
      | false => simp [mainRun, hq, hfetch, hconv, hfs, hguard]
  · intro c h
    unfold mainRun at h
    repeat' split at h
    all_goals try simp_all
    all_goals omega

/-- Witness for C2 on the success path: non-empty query, `envW` (fresh
data on the second round), no previous output, default threshold — the
single node feature is written. -/
theorem C2_exit_codes_witness :
    mainRun (QueryFile.present "node(1);out;") envW PrevOutput.missing 50 =
      MainResult.written [featW] := by
  exact (C2_exit_codes (QueryFile.present "node(1);out;") envW PrevOutput.missing 50).1
    "node(1);out;" dsFresh [featW] 0 rfl rfl rfl (by decide) rfl

end FunMap
